import Mathlib

/-!
Verification development for the `indexed` library (src/dist/indexed.js),
a thin asynchronous key-value facade over IndexedDB with pluggable
fallback adapters.  Each definition below is a shallow embedding of a
function of the source file (or of the host primitives the source calls,
modelled after their standard semantics, which the doc comments record).
-/

/-- JavaScript values, restricted to the payload shapes the library's spec
names as supported: strings, numbers, booleans, plain objects, arrays,
plus the two absence markers undefined and null.  Numbers are modelled as
integers; objects as association lists of fields. -/
inductive JSValue where
  | undef
  | null
  | bool (b : Bool)
  | num (n : Int)
  | str (s : String)
  | arr (elems : List JSValue)
  | obj (fields : List (String × JSValue))

/-- JavaScript truthiness coercion: undefined, null, false, 0 and the
empty string are falsy; every object and array is truthy. -/
def JSValue.truthy : JSValue → Bool
  | JSValue.undef => false
  | JSValue.null => false
  | JSValue.bool b => b
  | JSValue.num n => n != 0
  | JSValue.str s => s != ""
  | JSValue.arr _ => true
  | JSValue.obj _ => true

/-- JavaScript `a || b`: yields `a` when `a` is truthy, otherwise `b`. -/
def jsOr (a b : JSValue) : JSValue :=
  if a.truthy then a else b

/-- Association-list lookup by string key, the model of reading a
property of a plain JavaScript object (absent key gives none). -/
def lookupA {α : Type} : List (String × α) → String → Option α
  | [], _ => none
  | (k', v) :: rest, k => if k' = k then some v else lookupA rest k

/-- Association-list update: replace the entry with the given key in
place, or append a new entry when the key is absent.  This is both plain
JavaScript property assignment on an object and `IDBObjectStore.put` with
an in-line key path (put replaces the record whose key equals the put
record's key field, else inserts). -/
def objSet {α : Type} : List (String × α) → String → α → List (String × α)
  | [], k, v => [(k, v)]
  | (k', v') :: rest, k, v =>
    if k' = k then (k, v) :: rest else (k', v') :: objSet rest k v

/-- Association-list removal, the model of the JavaScript `delete`
operator on an object property. -/
def removeA {α : Type} : List (String × α) → String → List (String × α)
  | [], _ => []
  | (k', v) :: rest, k => if k' = k then rest else (k', v) :: removeA rest k

/-- The keys of an association list, in order. -/
def keysOf {α : Type} (l : List (String × α)) : List String :=
  l.map Prod.fst

/-- The contents of the one record collection "main": records are pairs
of the key field and the value field (the source stores records of shape
key/value with key path "key", so the record is determined by this pair). -/
abbrev Store : Type := List (String × JSValue)

/-- Model of `store.get(key)` on the "main" collection: the stored record
whose key field equals the requested key, if any. -/
def getRecord : Store → String → Option (String × JSValue)
  | [], _ => none
  | (k', v) :: rest, k => if k' = k then some (k', v) else getRecord rest k

/-- JavaScript `result?.value` where `result` is an optional record:
undefined when the record is absent, else its value field. -/
def optValue : Option (String × JSValue) → JSValue
  | some r => r.2
  | none => JSValue.undef

/-- `Indexed.Database.set` (src/dist/indexed.js lines 59-80), success
path: read the existing record by key inside a readwrite transaction;
when present, overwrite its value field and put the whole record back;
when absent, put a fresh record with the given key and value. -/
def dbSet (s : Store) (key : String) (value : JSValue) : Store :=
  match getRecord s key with
  | some result => objSet s result.1 value
  | none => objSet s key value

/-- `Indexed.Database.get` (lines 88-103), resolved value on a successful
read request: `result?.value || value`, where `value` is the
caller-supplied default (undefined when not passed). -/
def dbGet (s : Store) (key : String) (value : JSValue) : JSValue :=
  jsOr (optValue (getRecord s key)) value

/-- `Indexed.Database.all` (lines 110-129), resolved value: fold over the
records returned by `getAll`, assigning each record's value under its key
on an initially empty object. -/
def allStep (data : Store) (item : String × JSValue) : Store :=
  objSet data item.1 item.2

/-- The object `Indexed.Database.all` resolves with. -/
def dbAll (s : Store) : Store :=
  s.foldl allStep []

theorem lookupA_objSet_self {α : Type} (l : List (String × α)) (k : String) (v : α) :
    lookupA (objSet l k v) k = some v := by
  induction l with
  | nil => simp [objSet, lookupA]
  | cons hd tl ih =>
    obtain ⟨k', v'⟩ := hd
    by_cases h : k' = k
    · simp [objSet, h, lookupA]
    · simp [objSet, h, lookupA, ih]

theorem lookupA_objSet_ne {α : Type} (l : List (String × α)) {k' k : String} (v : α)
    (h : k' ≠ k) : lookupA (objSet l k' v) k = lookupA l k := by
  induction l with
  | nil => simp [objSet, lookupA, h]
  | cons hd tl ih =>
    obtain ⟨k₁, v₁⟩ := hd
    by_cases h1 : k₁ = k'
    · subst h1
      simp [objSet, lookupA, h]
    · simp only [objSet, if_neg h1, lookupA]
      by_cases h2 : k₁ = k
      · simp [h2]
      · simp [h2, ih]

theorem keysOf_cons {α : Type} (p : String × α) (tl : List (String × α)) :
    keysOf (p :: tl) = p.1 :: keysOf tl := rfl

theorem lookupA_eq_none_of_not_mem {α : Type} (l : List (String × α)) (k : String)
    (h : k ∉ keysOf l) : lookupA l k = none := by
  induction l with
  | nil => rfl
  | cons hd tl ih =>
    obtain ⟨k', v'⟩ := hd
    rw [keysOf_cons] at h
    simp only [List.mem_cons, not_or] at h
    have hne : ¬ k' = k := fun hh => h.1 hh.symm
    simp [lookupA, hne, ih h.2]

theorem mem_of_lookupA_isSome {α : Type} (l : List (String × α)) (k : String)
    (h : (lookupA l k).isSome = true) : k ∈ keysOf l := by
  induction l with
  | nil => simp [lookupA] at h
  | cons hd tl ih =>
    obtain ⟨k', v'⟩ := hd
    rw [keysOf_cons]
    by_cases h1 : k' = k
    · subst h1
      exact List.mem_cons_self _ _
    · simp only [lookupA, if_neg h1] at h
      exact List.mem_cons_of_mem _ (ih h)

theorem keysOf_objSet_of_mem {α : Type} (l : List (String × α)) (k : String) (v : α)
    (h : k ∈ keysOf l) : keysOf (objSet l k v) = keysOf l := by
  induction l with
  | nil => simp [keysOf] at h
  | cons hd tl ih =>
    obtain ⟨k', v'⟩ := hd
    by_cases h1 : k' = k
    · simp [objSet, h1, keysOf_cons]
    · rw [keysOf_cons] at h
      rcases List.mem_cons.mp h with h2 | h2
      · exact absurd h2.symm h1
      · simp only [objSet, if_neg h1, keysOf_cons]
        rw [ih h2]

theorem objSet_of_not_mem {α : Type} (l : List (String × α)) (k : String) (v : α)
    (h : k ∉ keysOf l) : objSet l k v = l ++ [(k, v)] := by
  induction l with
  | nil => rfl
  | cons hd tl ih =>
    obtain ⟨k', v'⟩ := hd
    rw [keysOf_cons] at h
    simp only [List.mem_cons, not_or] at h
    have hne : ¬ k' = k := fun hh => h.1 hh.symm
    simp [objSet, hne, ih h.2]

theorem nodup_append_singleton {α : Type} (xs : List α) (k : α)
    (hk : k ∉ xs) (h : xs.Nodup) : (xs ++ [k]).Nodup := by
  induction xs with
  | nil => simp
  | cons a tl ih =>
    simp only [List.mem_cons, not_or] at hk
    simp only [List.nodup_cons] at h
    simp only [List.cons_append, List.nodup_cons, List.mem_append, List.mem_singleton]
    refine ⟨?_, ih hk.2 h.2⟩
    rintro (ha | ha)
    · exact h.1 ha
    · exact hk.1 ha.symm

theorem nodup_keysOf_objSet {α : Type} (l : List (String × α)) (k : String) (v : α)
    (h : (keysOf l).Nodup) : (keysOf (objSet l k v)).Nodup := by
  by_cases hm : k ∈ keysOf l
  · rw [keysOf_objSet_of_mem _ _ _ hm]
    exact h
  · rw [objSet_of_not_mem _ _ _ hm]
    have : keysOf (l ++ [(k, v)]) = keysOf l ++ [k] := by simp [keysOf]
    rw [this]
    exact nodup_append_singleton _ _ hm h

theorem filter_eq_nil_of_not_mem (l : Store) (k : String)
    (h : k ∉ keysOf l) : l.filter (fun r => r.1 == k) = [] := by
  induction l with
  | nil => rfl
  | cons hd tl ih =>
    obtain ⟨k', v'⟩ := hd
    rw [keysOf_cons] at h
    simp only [List.mem_cons, not_or] at h
    have hne : (k' == k) = false := by
      simp only [beq_eq_false_iff_ne, ne_eq]
      exact fun hh => h.1 hh.symm
    simp [List.filter_cons, hne, ih h.2]

theorem filter_objSet_nodup (l : Store) (k : String) (v : JSValue)
    (h : (keysOf l).Nodup) : (objSet l k v).filter (fun r => r.1 == k) = [(k, v)] := by
  induction l with
  | nil => simp [objSet, List.filter_cons]
  | cons hd tl ih =>
    obtain ⟨k', v'⟩ := hd
    rw [keysOf_cons] at h
    simp only [List.nodup_cons] at h
    by_cases h1 : k' = k
    · subst h1
      simp only [objSet, if_pos rfl, List.filter_cons, beq_self_eq_true, if_pos]
      simp [filter_eq_nil_of_not_mem tl k' h.1]
    · have hne : (k' == k) = false := by
        simp only [beq_eq_false_iff_ne, ne_eq]
        exact h1
      simp only [objSet, if_neg h1, List.filter_cons, hne]
      simp [ih h.2]

theorem getRecord_some_key (s : Store) (k : String) (r : String × JSValue)
    (h : getRecord s k = some r) : r.1 = k := by
  induction s with
  | nil => simp [getRecord] at h
  | cons hd tl ih =>
    obtain ⟨k', v'⟩ := hd
    by_cases h1 : k' = k
    · simp only [getRecord, if_pos h1] at h
      cases h
      exact h1
    · simp only [getRecord, if_neg h1] at h
      exact ih h

theorem getRecord_objSet_self (l : Store) (k : String) (v : JSValue) :
    getRecord (objSet l k v) k = some (k, v) := by
  induction l with
  | nil => simp [objSet, getRecord]
  | cons hd tl ih =>
    obtain ⟨k', v'⟩ := hd
    by_cases h1 : k' = k
    · simp [objSet, h1, getRecord]
    · simp [objSet, h1, getRecord, ih]

theorem dbSet_eq_objSet (s : Store) (k : String) (v : JSValue) :
    dbSet s k v = objSet s k v := by
  unfold dbSet
  cases h : getRecord s k with
  | none => rfl
  | some r =>
    simp only []
    rw [getRecord_some_key s k r h]

theorem dbAll_aux (l : Store) : ∀ acc : Store,
    (keysOf acc ++ keysOf l).Nodup → l.foldl allStep acc = acc ++ l := by
  induction l with
  | nil => intro acc _; simp
  | cons hd tl ih =>
    intro acc h
    obtain ⟨k, v⟩ := hd
    rw [keysOf_cons] at h
    have hk : k ∉ keysOf acc := by
      rcases List.nodup_append.mp h with ⟨_, _, hdisj⟩
      exact fun hmem => hdisj hmem (List.mem_cons_self _ _)
    have hstep : allStep acc (k, v) = acc ++ [(k, v)] := by
      unfold allStep
      exact objSet_of_not_mem _ _ _ hk
    rw [List.foldl_cons, hstep, ih (acc ++ [(k, v)])]
    · simp
    · have hkeys : keysOf (acc ++ [(k, v)]) = keysOf acc ++ [k] := by simp [keysOf]
      rw [hkeys, List.append_assoc]
      simpa using h

theorem dbAll_of_nodup (s : Store) (h : (keysOf s).Nodup) : dbAll s = s := by
  unfold dbAll
  rw [dbAll_aux s [] (by simpa [keysOf] using h)]
  simp

/-- An opaque engine-level error (a DOMException carried by
`request.error`), identified by a code. -/
abbrev EngineErr : Type := Nat

/-- The engine outcomes `Indexed.Database.set` is exposed to: the outcome
of the initial `store.get(key)` request (a record or an error) and the
outcome of the `store.put` request the success handler issues.  The
source attaches handlers only to the get request; the put request's
outcome is never observed. -/
structure SetPhases where
  readPhase : Except EngineErr (Option (String × JSValue))
  putPhase : Except EngineErr Unit

/-- The ways the promise returned by `Indexed.Database.set` can settle. -/
inductive SetOutcome where
  | resolvedUnit
  | rejectedErr (e : EngineErr)

/-- How the promise of `Indexed.Database.set` (lines 59-80) settles:
`request.onerror` rejects with the get request's error; `request.onsuccess`
issues the put and calls `resolve()` at once, without consulting the put
request's outcome (no handler is attached to `store.put`'s request). -/
def dbSetOutcome (ph : SetPhases) : SetOutcome :=
  match ph.readPhase with
  | Except.error e => SetOutcome.rejectedErr e
  | Except.ok _ => SetOutcome.resolvedUnit

/-- The ways the promise returned by `Indexed.Database.get` can settle. -/
inductive GetOutcome where
  | resolvedVal (v : JSValue)
  | rejectedErr (e : EngineErr)

/-- How the promise of `Indexed.Database.get` (lines 88-103) settles,
given the store contents and the engine outcome of the read request:
on success it resolves with `result?.value || value`; on engine error it
rejects with that error.  A missing key is not an error: it reaches the
success handler with an undefined result. -/
def dbGetOutcome (s : Store) (key : String) (value : JSValue)
    (eng : Except EngineErr Unit) : GetOutcome :=
  match eng with
  | Except.error e => GetOutcome.rejectedErr e
  | Except.ok _ => GetOutcome.resolvedVal (dbGet s key value)

/-- C2 counterexample: the claim includes falsy values, but storing the
supported boolean value `false` and reading it back yields the absence
marker undefined, not `false`: `get` resolves `result?.value || value`,
and JavaScript `||` discards a falsy stored value. -/
theorem get_falsy_roundTrip_cex :
    dbGet (dbSet [] "a" (JSValue.bool false)) "a" JSValue.undef = JSValue.undef
    ∧ JSValue.undef ≠ JSValue.bool false :=
  ⟨rfl, fun h => JSValue.noConfusion h⟩

/-- C2 (amended): for every supported value v and key k, `set(k, v)`
followed by `get(k, d)` resolves with v when v is truthy; when the stored
value is falsy (0, false, the empty string, null), `get` resolves with
the caller's default d instead of the stored value. -/
theorem set_get_roundTrip_truthy (s : Store) (k : String) (v d : JSValue) :
    (v.truthy = true → dbGet (dbSet s k v) k d = v)
    ∧ (v.truthy = false → dbGet (dbSet s k v) k d = d) := by
  rw [dbSet_eq_objSet]
  unfold dbGet
  rw [getRecord_objSet_self]
  unfold optValue jsOr
  constructor <;> intro h <;> simp [h]

/-- C2 witness: the truthy branch of the amended round-trip at a concrete
input. -/
theorem set_get_roundTrip_truthy_w :
    dbGet (dbSet [] "a" (JSValue.str "x")) "a" JSValue.undef = JSValue.str "x" :=
  (set_get_roundTrip_truthy [] "a" (JSValue.str "x") JSValue.undef).1 rfl

/-- C3: on a store whose record keys are unique (the invariant the
engine's key path enforces), two successive `set(k, v1)` then `set(k, v2)`
leave the store with unique keys, and `all()` resolves with exactly one
entry for k, holding v2: `set` replaces the existing record's value in
place when present and inserts a fresh record only when absent. -/
theorem set_set_all_unique_entry (s : Store) (k : String) (v1 v2 : JSValue)
    (h : (keysOf s).Nodup) :
    (dbAll (dbSet (dbSet s k v1) k v2)).filter (fun r => r.1 == k) = [(k, v2)]
    ∧ (keysOf (dbSet (dbSet s k v1) k v2)).Nodup := by
  rw [dbSet_eq_objSet, dbSet_eq_objSet]
  have h1 : (keysOf (objSet s k v1)).Nodup := nodup_keysOf_objSet _ _ _ h
  have h2 : (keysOf (objSet (objSet s k v1) k v2)).Nodup := nodup_keysOf_objSet _ _ _ h1
  rw [dbAll_of_nodup _ h2]
  exact ⟨filter_objSet_nodup _ _ _ h1, h2⟩

/-- C3 witness: the uniqueness property evaluated on the empty store. -/
theorem set_set_all_unique_entry_w :
    (dbAll (dbSet (dbSet [] "a" (JSValue.num 1)) "a" (JSValue.num 2))).filter
        (fun r => r.1 == "a") = [("a", JSValue.num 2)] :=
  (set_set_all_unique_entry [] "a" (JSValue.num 1) (JSValue.num 2) List.nodup_nil).1

/-- C4 counterexample: an engine run whose read phase succeeds and whose
put request the engine rejects; `set` resolves successfully anyway — the
engine-level write error is silently suppressed, because the success
handler calls `resolve()` without attaching any handler to the put
request. -/
theorem set_put_error_suppressed_cex :
    (SetPhases.mk (Except.ok none) (Except.error 7)).putPhase = Except.error 7
    ∧ dbSetOutcome (SetPhases.mk (Except.ok none) (Except.error 7))
        = SetOutcome.resolvedUnit :=
  ⟨rfl, rfl⟩

/-- C4 (amended): `set` rejects with exactly the engine's error from the
read phase, and resolves with no value whenever the read phase succeeds —
regardless of the put request's outcome, which is never surfaced. -/
theorem set_rejects_iff_read_error (ph : SetPhases) :
    (∀ e, dbSetOutcome ph = SetOutcome.rejectedErr e ↔ ph.readPhase = Except.error e)
    ∧ (∀ r, ph.readPhase = Except.ok r → dbSetOutcome ph = SetOutcome.resolvedUnit) := by
  obtain ⟨rd, pt⟩ := ph
  cases rd with
  | error e =>
    constructor
    · intro e'
      unfold dbSetOutcome
      simp
    · intro r hr
      simp at hr
  | ok r0 =>
    constructor
    · intro e'
      unfold dbSetOutcome
      simp
    · intro r _
      rfl

/-- C4 witness: the amended statement applied at a concrete engine run
whose read phase fails with error 3. -/
theorem set_rejects_iff_read_error_w :
    dbSetOutcome (SetPhases.mk (Except.error 3) (Except.ok ())) = SetOutcome.rejectedErr 3 :=
  ((set_rejects_iff_read_error (SetPhases.mk (Except.error 3) (Except.ok ()))).1 3).mpr rfl

/-- C7: for a key with no record in the store, `get(k, d)` resolves with
exactly d (also when d itself is falsy, since `undefined || d` is d), and
`get(k)` with no default resolves with the absence marker undefined;
the missing key never reaches the rejection path — only an engine-level
read error does. -/
theorem get_missing_key_default (s : Store) (k : String) (d : JSValue)
    (h : getRecord s k = none) :
    dbGetOutcome s k d (Except.ok ()) = GetOutcome.resolvedVal d
    ∧ dbGetOutcome s k JSValue.undef (Except.ok ()) = GetOutcome.resolvedVal JSValue.undef := by
  unfold dbGetOutcome dbGet
  rw [h]
  constructor <;> rfl

/-- C7 witness: a never-set key with the falsy default 0 resolves with
exactly 0. -/
theorem get_missing_key_default_w :
    dbGetOutcome [] "a" (JSValue.num 0) (Except.ok ()) = GetOutcome.resolvedVal (JSValue.num 0) :=
  (get_missing_key_default [] "a" (JSValue.num 0) rfl).1

/-- The schema of one object store as IndexedDB exposes it for
introspection: its name, its key path, and its index names.  Per the
IndexedDB standard, `indexNames` lists only the indexes created with
`createIndex`; the store's key path is not an index and never appears in
`indexNames`. -/
structure StoreSchema where
  storeName : String
  keyPath : String
  indexNames : List String

/-- The object stores a database schema declares;
`db.objectStoreNames` is their name list. -/
def objectStoreNames (stores : List StoreSchema) : List String :=
  stores.map StoreSchema.storeName

/-- The schema created by `Indexed.prototype.open`'s upgrade handler
(lines 174-178): `createObjectStore("main", keyPath "key")` followed by
`main.createIndex("value", "value")`.  The resulting store has key path
"key" and exactly one index, named "value". -/
def openUpgradeSchema : List StoreSchema :=
  [StoreSchema.mk "main" "key" ["value"]]

/-- The schema `check`'s own `indexedDB.open` produces for a name that was
never created or was just deleted: the open creates the database afresh,
and since `check` installs no upgrade handler, no object store exists. -/
def emptySchema : List StoreSchema := []

/-- The boolean `Indexed.prototype.check` (lines 216-242) resolves with,
as a function of the opened database's schema: false unless the "main"
store exists, its `indexNames` contains "key", and its `indexNames`
contains "value". -/
def checkSchema (stores : List StoreSchema) : Bool :=
  if !((objectStoreNames stores).contains "main") then false
  else
    match stores.find? (fun s => s.storeName == "main") with
    | none => false
    | some store =>
      if !(store.indexNames.contains "key") then false
      else if !(store.indexNames.contains "value") then false
      else true

/-- C1: `check` is indeed false for a never-created or just-deleted name,
but it is also false immediately after a successful `open`: the upgrade
path creates only the "value" index, the key path "key" is not listed in
`indexNames`, and `check` demands an index named "key".  The claim (and
the repository's own documentation, whose example shows `check` returning
true for a database the library created) says it should be true. -/
theorem checkSchema_false_after_openUpgrade :
    checkSchema openUpgradeSchema = false ∧ checkSchema emptySchema = false :=
  ⟨rfl, rfl⟩

/-- The events the engine can fire on the `deleteDatabase` request that
`Indexed.prototype.delete` (lines 194-208) listens to. -/
inductive DeleteEvent where
  | successEvt
  | errorEvt (e : EngineErr)
  | blockedEvt

/-- What the handler that receives a delete event does to the promise. -/
inductive DeleteHandlerAction where
  | resolvedUnit
  | rejectedErr (e : EngineErr)
  | handlerThrew

/-- How the handlers of `Indexed.prototype.delete` act on each event:
`onsuccess` resolves; `onerror` rejects with `evt.target.error` (the
request is done, so the getter returns the engine's error); `onblocked`
also evaluates `evt.target.error`, but per the IndexedDB standard the
`error` getter throws InvalidStateError while the request is still
pending — which it is during a blocked event — so the handler throws
before `reject` is ever called and the promise is not settled by it. -/
def deleteHandlerAction : DeleteEvent → DeleteHandlerAction
  | DeleteEvent.successEvt => DeleteHandlerAction.resolvedUnit
  | DeleteEvent.errorEvt e => DeleteHandlerAction.rejectedErr e
  | DeleteEvent.blockedEvt => DeleteHandlerAction.handlerThrew

/-- C6 counterexample: on the blocked event the code produces no
rejection value at all — the handler throws while reading the pending
request's error — so the caller receives no BlockedError, and nothing
distinct from a generic deletion error is ever surfaced (no BlockedError
value exists anywhere in the source). -/
theorem delete_blocked_no_reject_cex :
    deleteHandlerAction DeleteEvent.blockedEvt = DeleteHandlerAction.handlerThrew
    ∧ DeleteHandlerAction.handlerThrew ≠ DeleteHandlerAction.rejectedErr 0 :=
  ⟨rfl, fun h => DeleteHandlerAction.noConfusion h⟩

/-- C6 (amended): `delete` rejects with an error value exactly on the
engine's error event, carrying that engine error verbatim; the blocked
event produces no rejection — the handler's read of `evt.target.error`
throws on the still-pending request — so no distinct BlockedError is
surfaced and the blocked case cannot be told apart by a dedicated error
type. -/
theorem delete_reject_iff_error_event (evt : DeleteEvent) :
    (∃ e, deleteHandlerAction evt = DeleteHandlerAction.rejectedErr e)
    ↔ (∃ e, evt = DeleteEvent.errorEvt e) := by
  cases evt with
  | successEvt =>
    constructor <;> rintro ⟨e, h⟩ <;> simp [deleteHandlerAction] at h
  | errorEvt e0 =>
    constructor <;> intro _ <;> exact ⟨e0, rfl⟩
  | blockedEvt =>
    constructor <;> rintro ⟨e, h⟩ <;> simp [deleteHandlerAction] at h

/-- C6 witness: the amended statement applied at the concrete engine
error event 0. -/
theorem delete_reject_iff_error_event_w :
    ∃ e, deleteHandlerAction (DeleteEvent.errorEvt 0) = DeleteHandlerAction.rejectedErr e :=
  (delete_reject_iff_error_event (DeleteEvent.errorEvt 0)).mpr ⟨0, rfl⟩

/-- The runtime errors the fallback adapters can raise: a TypeError from
accessing, assigning or deleting a property of null, and a ReferenceError
from evaluating an identifier that is not in scope. -/
inductive JsError where
  | typeError
  | referenceError

/-- The web storage substrate of `Indexed.fallbackForWebStorage`
(lines 308-360).  The substrate stores one serialized blob per name; the
blob is modelled in its parsed form, since for the supported value shapes
`JSON.parse (JSON.stringify v)` recovers v.  `getItem` on an absent name
returns null, and `JSON.parse(null)` coerces its argument to the string
"null" and yields the value null — so `getData` of an absent name is
null, exactly as in the source. -/
abbrev WebStorage : Type := List (String × JSValue)

/-- The adapter's `getData(name)`: `JSON.parse(storage.getItem(name))`,
null when the name holds no partition. -/
def getData (st : WebStorage) (name : String) : JSValue :=
  match lookupA st name with
  | some v => v
  | none => JSValue.null

/-- The adapter's `setData(name, val)`:
`storage.setItem(name, JSON.stringify(val))`. -/
def setData (st : WebStorage) (name : String) (v : JSValue) : WebStorage :=
  objSet st name v

/-- The truthiness of the guard `!fallback.check(db)`: `fallback.check`
is an async function, so calling it yields a Promise object, and every
object is truthy — the negation is always false and the lazy-init branch
`setData(db, {})` is unreachable, whatever the storage holds. -/
def promiseTruthy : Bool := true

/-- The guard line shared by the web-storage adapter's data operations:
`if(!fallback.check(db)) setData(db, {})`. -/
def wsLazyInit (st : WebStorage) (db : String) : WebStorage :=
  if !promiseTruthy then setData st db (JSValue.obj []) else st

/-- JavaScript property read `base[key]`: throws TypeError on null or
undefined; yields the field on an object; yields undefined on other
primitives (which have no such own property). -/
def propGetJs : JSValue → String → Except JsError JSValue
  | JSValue.null, _ => Except.error JsError.typeError
  | JSValue.undef, _ => Except.error JsError.typeError
  | JSValue.obj fs, k =>
    Except.ok (match lookupA fs k with
      | some v => v
      | none => JSValue.undef)
  | _, _ => Except.ok JSValue.undef

/-- JavaScript property assignment `base[key] = v`: throws TypeError on
null or undefined; updates the field on an object; on other primitives it
is a silent no-op in non-strict code (the source runs outside strict
mode). -/
def propAssign : JSValue → String → JSValue → Except JsError JSValue
  | JSValue.null, _, _ => Except.error JsError.typeError
  | JSValue.undef, _, _ => Except.error JsError.typeError
  | JSValue.obj fs, k, v => Except.ok (JSValue.obj (objSet fs k v))
  | other, _, _ => Except.ok other

/-- JavaScript `delete base[key]`: throws TypeError on null or undefined
(the base cannot be converted to an object); removes the field on an
object; is a no-op on other primitives. -/
def propDeleteJs : JSValue → String → Except JsError JSValue
  | JSValue.null, _ => Except.error JsError.typeError
  | JSValue.undef, _ => Except.error JsError.typeError
  | JSValue.obj fs, k => Except.ok (JSValue.obj (removeA fs k))
  | other, _ => Except.ok other

/-- `fallbackForWebStorage`'s `open.set(db, key, value)` (lines 334-339):
guard (unreachable lazy init), read the partition, assign the key, write
the partition back. -/
def wsSet (st : WebStorage) (db key : String) (v : JSValue) : Except JsError WebStorage :=
  let st1 := wsLazyInit st db
  let data := getData st1 db
  (propAssign data key v).map (fun d => setData st1 db d)

/-- `fallbackForWebStorage`'s `open.get(db, key, value)` (lines 340-344):
guard, read the partition, yield `data[key] || value`. -/
def wsGet (st : WebStorage) (db key : String) (deflt : JSValue) : Except JsError JSValue :=
  let st1 := wsLazyInit st db
  let data := getData st1 db
  (propGetJs data key).map (fun dv => jsOr dv deflt)

/-- `fallbackForWebStorage`'s `open.delete(db, key)` (lines 345-350):
guard, read the partition, delete the key, write the partition back. -/
def wsDelete (st : WebStorage) (db key : String) : Except JsError WebStorage :=
  let st1 := wsLazyInit st db
  let data := getData st1 db
  (propDeleteJs data key).map (fun d => setData st1 db d)

/-- `fallbackForWebStorage`'s `open.all()` (lines 351-354): the function
declares no parameter, yet its body reads the identifier `db` (in
`fallback.check(db)` and `getData(db)`), which is bound nowhere in the
enclosing scopes — so every call throws a ReferenceError before touching
the storage; the database name `Indexed.Database.all` passes as an
argument is ignored. -/
def wsAll (_st : WebStorage) (_dbArg : String) : Except JsError JSValue :=
  Except.error JsError.referenceError

/-- C5: every data operation of the web-storage adapter fails on a
never-before-accessed database name instead of lazily initializing the
partition: the guard `!fallback.check(db)` is always false (`check` is
async, a Promise is truthy), so the partition stays null and the
operations throw — set, get and delete a TypeError on the null partition,
and all a ReferenceError from its unbound `db`.  The claim (and the spec's
lazy-initialization sentence, clearly the intent of the guard) says the
first set on a fresh name stores the value. -/
theorem webStorage_fresh_ops_fail :
    wsSet [] "d" "k" (JSValue.str "v") = Except.error JsError.typeError
    ∧ wsGet [] "d" "k" (JSValue.str "dflt") = Except.error JsError.typeError
    ∧ wsDelete [] "d" "k" = Except.error JsError.typeError
    ∧ wsAll [] "d" = Except.error JsError.referenceError :=
  ⟨rfl, rfl, rfl, rfl⟩

/-- The external object of `Indexed.fallbackForObject` (lines 380-418),
managed through the documented getter/setter pair over a plain object
mapping database names to partition objects.  The operations mutate the
fetched object in place and hand it back through the setter. -/
abbrev ObjStore : Type := List (String × JSValue)

/-- The partition expression `data[db] || {}` the object adapter
evaluates before each data operation. -/
def obPartition (data : ObjStore) (db : String) : JSValue :=
  jsOr (match lookupA data db with
    | some v => v
    | none => JSValue.undef) (JSValue.obj [])

/-- `fallbackForObject`'s `open.set(db, key, val)` (lines 394-399):
`data[db] = data[db] || {}`, then `data[db][key] = val`, then
`setter(data)`.  When the partition is a truthy non-object the inner
assignment is a silent no-op (unreachable for partitions this adapter
itself writes). -/
def obSet (store : ObjStore) (db key : String) (v : JSValue) : ObjStore :=
  let part := obPartition store db
  let data1 := objSet store db part
  match part with
  | JSValue.obj fs => objSet data1 db (JSValue.obj (objSet fs key v))
  | _ => data1

/-- `fallbackForObject`'s `open.all(db)` (lines 411-415):
`data[db] = data[db] || {}`, then return `data[db]` — the pair is the
mutated store and the resolved value. -/
def obAll (store : ObjStore) (db : String) : ObjStore × JSValue :=
  let part := obPartition store db
  (objSet store db part, part)

/-- C8: enumeration completeness fails on the web-storage reference
adapter — its `all()` rejects with a ReferenceError even when the
partition already holds exactly the two written records, because its body
reads an unbound `db` (and the preceding `set` calls on a fresh partition
already throw, see the C5 theorem) — while the object reference adapter
does satisfy it: after `set(k1, v1)` and `set(k2, v2)` on a fresh store,
`all(db)` resolves with exactly the object holding k1 ↦ v1 and k2 ↦ v2. -/
theorem fallback_all_parity_eval :
    wsAll [("d", JSValue.obj [("a", JSValue.num 1), ("b", JSValue.str "y")])] "d"
        = Except.error JsError.referenceError
    ∧ (obAll (obSet (obSet [] "d" "a" (JSValue.num 1)) "d" "b" (JSValue.str "y")) "d").2
        = JSValue.obj [("a", JSValue.num 1), ("b", JSValue.str "y")] :=
  ⟨rfl, rfl⟩

/-- A JavaScript function value as the fallback tables hold them:
arguments in, value out. -/
abbrev Fn : Type := List JSValue → JSValue

/-- The no-op function the tables are seeded with: a function with an
empty body returns undefined. -/
def noopFn : Fn := fun _ => JSValue.undef

/-- One iteration of `createFallbacks`' installation loop
(lines 31-35): `if(k in res) res[k] = temp[k]` — the entry is installed
only when its key is already a key of the table. -/
def fbStep (r : List (String × Fn)) (kv : String × Fn) : List (String × Fn) :=
  if (lookupA r kv.1).isSome then objSet r kv.1 kv.2 else r

/-- `createFallbacks(keys, temp)` (lines 26-37): seed every requested key
with the no-op, then walk the enumerable properties of `temp` (none when
`temp` is null or undefined), installing each under its key only when
that key was seeded. -/
def createFallbacks (keys : List String) (temp : Option (List (String × Fn))) :
    List (String × Fn) :=
  match temp with
  | none => keys.map (fun k => (k, noopFn))
  | some t => t.foldl fbStep (keys.map (fun k => (k, noopFn)))

theorem keysOf_noopInit (keys : List String) :
    keysOf (keys.map (fun k => (k, noopFn))) = keys := by
  induction keys with
  | nil => rfl
  | cons hd tl ih => simp [keysOf] at ih ⊢; exact ih

theorem lookupA_noopInit_of_mem (keys : List String) (k : String)
    (h : k ∈ keys) : lookupA (keys.map (fun k => (k, noopFn))) k = some noopFn := by
  induction keys with
  | nil => simp at h
  | cons hd tl ih =>
    by_cases h1 : hd = k
    · simp [lookupA, h1]
    · rcases List.mem_cons.mp h with h2 | h2
      · exact absurd h2.symm h1
      · simp [lookupA, h1, ih h2]

theorem keysOf_fbStep (r : List (String × Fn)) (p : String × Fn) :
    keysOf (fbStep r p) = keysOf r := by
  unfold fbStep
  by_cases h : (lookupA r p.1).isSome = true
  · rw [if_pos h]
    exact keysOf_objSet_of_mem _ _ _ (mem_of_lookupA_isSome _ _ h)
  · rw [if_neg h]

theorem keysOf_fbFold (t : List (String × Fn)) : ∀ r : List (String × Fn),
    keysOf (t.foldl fbStep r) = keysOf r := by
  induction t with
  | nil => intro r; rfl
  | cons hd tl ih =>
    intro r
    rw [List.foldl_cons, ih (fbStep r hd), keysOf_fbStep]

theorem lookupA_fbStep_ne (r : List (String × Fn)) (p : String × Fn) (k : String)
    (h : p.1 ≠ k) : lookupA (fbStep r p) k = lookupA r k := by
  unfold fbStep
  by_cases h1 : (lookupA r p.1).isSome = true
  · rw [if_pos h1]
    exact lookupA_objSet_ne _ _ h
  · rw [if_neg h1]

theorem lookupA_fbFold_of_absent (t : List (String × Fn)) : ∀ r : List (String × Fn),
    ∀ k : String, (∀ kv ∈ t, kv.1 ≠ k) → lookupA (t.foldl fbStep r) k = lookupA r k := by
  induction t with
  | nil => intro r k _; rfl
  | cons hd tl ih =>
    intro r k h
    rw [List.foldl_cons, ih (fbStep r hd) k (fun kv hm => h kv (List.mem_cons_of_mem _ hm)),
      lookupA_fbStep_ne _ _ _ (h hd (List.mem_cons_self _ _))]

theorem entries_ne_of_lookupA_none {α : Type} (t : List (String × α)) (k : String)
    (h : lookupA t k = none) : ∀ kv ∈ t, kv.1 ≠ k := by
  induction t with
  | nil => intro kv hm; simp at hm
  | cons hd tl ih =>
    obtain ⟨k', v'⟩ := hd
    by_cases h1 : k' = k
    · simp [lookupA, h1] at h
    · simp only [lookupA, if_neg h1] at h
      intro kv hm
      rcases List.mem_cons.mp hm with h2 | h2
      · subst h2; exact h1
      · exact ih h kv h2

theorem lookupA_isSome_of_mem {α : Type} (l : List (String × α)) (k : String)
    (h : k ∈ keysOf l) : (lookupA l k).isSome = true := by
  induction l with
  | nil => simp [keysOf] at h
  | cons hd tl ih =>
    obtain ⟨k', v'⟩ := hd
    by_cases h1 : k' = k
    · simp [lookupA, h1]
    · rw [keysOf_cons] at h
      rcases List.mem_cons.mp h with h2 | h2
      · exact absurd h2.symm h1
      · simp only [lookupA, if_neg h1]
        exact ih h2

theorem key_mem_keysOf {α : Type} (t : List (String × α)) (kv : String × α)
    (h : kv ∈ t) : kv.1 ∈ keysOf t :=
  List.mem_map_of_mem Prod.fst h

theorem lookupA_fbFold_install (t : List (String × Fn)) : ∀ r : List (String × Fn),
    ∀ k f, (keysOf t).Nodup → lookupA t k = some f → k ∈ keysOf r →
      lookupA (t.foldl fbStep r) k = some f := by
  induction t with
  | nil => intro r k f _ h _; simp [lookupA] at h
  | cons hd tl ih =>
    intro r k f hnd h hm
    obtain ⟨k1, f1⟩ := hd
    rw [keysOf_cons] at hnd
    simp only [List.nodup_cons] at hnd
    by_cases h1 : k1 = k
    · subst h1
      simp only [lookupA, if_true, if_pos, Option.some.injEq] at h
      subst h
      rw [List.foldl_cons]
      have hstep : fbStep r (k1, f1) = objSet r k1 f1 := by
        unfold fbStep
        rw [if_pos (lookupA_isSome_of_mem _ _ hm)]
      rw [hstep]
      have habsent : ∀ kv ∈ tl, kv.1 ≠ k1 := fun kv hkv hk =>
        hnd.1 (hk ▸ key_mem_keysOf tl kv hkv)
      rw [lookupA_fbFold_of_absent tl _ k1 habsent]
      exact lookupA_objSet_self _ _ _
    · simp only [lookupA, if_neg h1] at h
      rw [List.foldl_cons]
      refine ih (fbStep r (k1, f1)) k f hnd.2 h ?_
      rw [keysOf_fbStep]
      exact hm

/-- The five data-operation names of a DatabaseHandle's per-operation
fallback table (line 50 of the source). -/
def databaseOpKeys : List String := ["set", "get", "all", "delete", "close"]

/-- The table the `Indexed.Database` constructor builds (lines 47-51):
`createFallbacks(["set","get","all","delete","close"], fallback.open)`. -/
def databaseFallbackTable (fbOpen : Option (List (String × Fn))) : List (String × Fn) :=
  createFallbacks databaseOpKeys fbOpen

/-- C10: whatever `open` sub-table an adapter supplies, the handle's
fallback table has exactly the five keys set, get, all, delete, close —
also when no sub-table is supplied at all; any sub-table entry under
another name is ignored (no such key exists in the table); a name the
sub-table does not carry keeps the seeded no-op, which returns undefined;
and a name it does carry (sub-table keys are unique, as JavaScript object
properties are) is installed under exactly that key. -/
theorem databaseFallbackTable_exact_keys (temp : List (String × Fn)) :
    keysOf (databaseFallbackTable (some temp)) = databaseOpKeys
    ∧ keysOf (databaseFallbackTable none) = databaseOpKeys
    ∧ (∀ k, k ∉ databaseOpKeys → lookupA (databaseFallbackTable (some temp)) k = none)
    ∧ (∀ k, k ∈ databaseOpKeys → lookupA temp k = none →
        lookupA (databaseFallbackTable (some temp)) k = some noopFn)
    ∧ (∀ k f, (keysOf temp).Nodup → lookupA temp k = some f → k ∈ databaseOpKeys →
        lookupA (databaseFallbackTable (some temp)) k = some f)
    ∧ (∀ args, noopFn args = JSValue.undef) := by
  have hkeys : keysOf (databaseFallbackTable (some temp)) = databaseOpKeys := by
    unfold databaseFallbackTable createFallbacks
    rw [keysOf_fbFold, keysOf_noopInit]
  refine ⟨hkeys, keysOf_noopInit _, ?_, ?_, ?_, fun _ => rfl⟩
  · intro k hk
    exact lookupA_eq_none_of_not_mem _ _ (hkeys ▸ hk)
  · intro k hk hnone
    unfold databaseFallbackTable createFallbacks
    rw [lookupA_fbFold_of_absent _ _ _ (entries_ne_of_lookupA_none _ _ hnone)]
    exact lookupA_noopInit_of_mem _ _ hk
  · intro k f hnd hsome hk
    unfold databaseFallbackTable createFallbacks
    exact lookupA_fbFold_install _ _ _ _ hnd hsome ((keysOf_noopInit databaseOpKeys) ▸ hk)

/-- C10 witness: a sub-table carrying only an unrelated name leaves "set"
bound to the seeded no-op. -/
theorem databaseFallbackTable_exact_keys_w :
    lookupA (databaseFallbackTable (some [("zzz", noopFn)])) "set" = some noopFn :=
  ((databaseFallbackTable_exact_keys [("zzz", noopFn)]).2.2.2.1) "set" (by decide) rfl

/-- The four lifecycle-operation names of a StoreManager's fallback table
(line 46 of the source). -/
def managerOpKeys : List String := ["open", "delete", "check", "all"]

/-- The default fallback table every `Indexed` instance starts with:
`createFallbacks(["open","delete","check","all"])` with no second
argument, so all four entries are the no-op. -/
def defaultManagerFallback : List (String × Fn) :=
  createFallbacks managerOpKeys none

/-- Calling `this.fallback[k](args)`: look the function up in the table
and apply it (the manager only calls keys its own table construction
seeded). -/
def applyTable (tbl : List (String × Fn)) (k : String) (args : List JSValue) : JSValue :=
  match lookupA tbl k with
  | some f => f args
  | none => JSValue.undef

/-- The shape of the value a StoreManager public operation returns: a
Promise (a deferred result), a plain `Indexed.Database` object, or a
plain value such as undefined. -/
inductive RetShape where
  | deferred
  | syncDatabase (dbRef : String)
  | syncValue (v : JSValue)

/-- Return shape of `Indexed.prototype.open` (lines 169-186): a Promise
when the engine is supported; otherwise `new Indexed.Database(name,
fallback)` returned directly — a plain object, not a deferred result. -/
def managerOpen (supported : Bool) (_fb : List (String × Fn)) (name : String) : RetShape :=
  if supported then RetShape.deferred else RetShape.syncDatabase name

/-- Return shape of `Indexed.prototype.delete` (lines 194-208): a Promise
when supported; otherwise whatever `this.fallback.delete(name, version)`
returns, handed back directly. -/
def managerDelete (supported : Bool) (fb : List (String × Fn)) (name : String) : RetShape :=
  if supported then RetShape.deferred
  else RetShape.syncValue (applyTable fb "delete" [JSValue.str name, JSValue.num 1])

/-- Return shape of `Indexed.prototype.check` (lines 216-242): a Promise
when supported; otherwise `this.fallback.check(name, version)` handed
back directly. -/
def managerCheck (supported : Bool) (fb : List (String × Fn)) (name : String) : RetShape :=
  if supported then RetShape.deferred
  else RetShape.syncValue (applyTable fb "check" [JSValue.str name, JSValue.num 1])

/-- Return shape of `Indexed.prototype.all` (lines 249-252): the method
is declared async, so it returns a Promise in both modes — in fallback
mode one resolving to whatever `this.fallback.all()` returned. -/
def managerAll (_supported : Bool) (_fb : List (String × Fn)) : RetShape :=
  RetShape.deferred

/-- C9 counterexample: in unsupported mode with the default no-op
fallback table, `check` and `delete` return the plain value undefined and
`open` returns a plain Database object — none of the three is a deferred
result, contradicting the claim for three of the four operations. -/
theorem manager_sync_returns_cex :
    managerCheck false defaultManagerFallback "d" = RetShape.syncValue JSValue.undef
    ∧ managerDelete false defaultManagerFallback "d" = RetShape.syncValue JSValue.undef
    ∧ managerOpen false defaultManagerFallback "d" = RetShape.syncDatabase "d"
    ∧ RetShape.syncValue JSValue.undef ≠ RetShape.deferred
    ∧ RetShape.syncDatabase "d" ≠ RetShape.deferred :=
  ⟨rfl, rfl, rfl, fun h => RetShape.noConfusion h, fun h => RetShape.noConfusion h⟩

/-- C9 (amended): when the engine is supported, open, delete, check and
all each return a deferred result, and `all` does so in unsupported mode
too (it is an async method); but in unsupported mode `open` returns a
DatabaseHandle synchronously, and `check` and `delete` return the
fallback function's value synchronously — undefined under the default
no-op table. -/
theorem manager_return_shapes (fb : List (String × Fn)) (name : String) :
    managerOpen true fb name = RetShape.deferred
    ∧ managerDelete true fb name = RetShape.deferred
    ∧ managerCheck true fb name = RetShape.deferred
    ∧ managerAll true fb = RetShape.deferred
    ∧ managerAll false fb = RetShape.deferred
    ∧ managerOpen false fb name = RetShape.syncDatabase name
    ∧ managerCheck false defaultManagerFallback name = RetShape.syncValue JSValue.undef
    ∧ managerDelete false defaultManagerFallback name = RetShape.syncValue JSValue.undef :=
  ⟨rfl, rfl, rfl, rfl, rfl, rfl, rfl, rfl⟩
